import Mathlib

/-!
Shallow embedding of the employee/department directory application
(`streamlit_ad_portal_app.py`).  Tables are lists of records; pandas
cell values that may be NA, integers or strings are modelled by `Cell`.
Each definition mirrors one code path of the source file; theorems then
settle the spec claims about those paths.
-/

/-- A pandas cell as it appears in the `Row ID` column: missing (NA),
an integer, or a string. -/
inductive Cell where
  | na : Cell
  | int (n : Int) : Cell
  | str (s : String) : Cell
deriving Repr, DecidableEq

/-- One row of the `Employees` sheet (columns `EMP_COLUMNS`). -/
structure Emp where
  rowId : Cell
  employeeId : String
  name : String
  extension : String
  department : String
  cellNumber : String
  location : String
  status : String
  notes : String
  lastUpdated : String
deriving Repr, DecidableEq

/-- One row of the `Departments` sheet (columns `DEPT_COLUMNS`).
`Dept ID` is kept as a string by `read_workbook`/`write_workbook`. -/
structure Dept where
  deptId : String
  departmentName : String
  description : String
deriving Repr, DecidableEq

/-- Python `str.strip()`: drop leading and trailing whitespace. -/
def pyStrip (s : String) : String :=
  String.mk ((((s.toList).dropWhile Char.isWhitespace).reverse.dropWhile
    Char.isWhitespace).reverse)

/-- Python `str.lower()` (ASCII range, as used by the app's names). -/
def pyLower (s : String) : String :=
  String.mk (s.toList.map Char.toLower)

/-- Lexicographic order on char lists, as Python compares strings. -/
def listLtChar : List Char → List Char → Bool
  | [], [] => false
  | [], _ :: _ => true
  | _ :: _, [] => false
  | a :: as, b :: bs => a < b || (a == b && listLtChar as bs)

/-- Python `<` on strings. -/
def strLt (a b : String) : Bool := listLtChar a.toList b.toList

/-- Value of a run of decimal digits. -/
def digitsVal (l : List Char) : Nat :=
  l.foldl (fun acc c => acc * 10 + (c.toNat - '0'.toNat)) 0

/-- Python `int(s)` on a string: optional surrounding whitespace,
optional sign, then at least one digit; anything else raises. -/
def parsePyInt (s : String) : Option Int :=
  match (pyStrip s).toList with
  | [] => none
  | '+' :: rest =>
      if rest ≠ [] && rest.all (·.isDigit) then some (digitsVal rest) else none
  | '-' :: rest =>
      if rest ≠ [] && rest.all (·.isDigit) then some (-(digitsVal rest : Int)) else none
  | cs =>
      if cs.all (·.isDigit) then some (digitsVal cs) else none

/-- Read a list of cells as all-integers (pandas series of int dtype). -/
def cellsInts : List Cell → Option (List Int)
  | [] => some []
  | .int n :: rest => (cellsInts rest).map (n :: ·)
  | .na :: _ => none
  | .str _ :: _ => none

/-- Read a list of cells as all-strings (pandas series of str dtype). -/
def cellsStrs : List Cell → Option (List String)
  | [] => some []
  | .str s :: rest => (cellsStrs rest).map (s :: ·)
  | .na :: _ => none
  | .int _ :: _ => none

/-- Maximum of a list of integers (pandas `max` on an int column). -/
def listMaxInt : List Int → Option Int
  | [] => none
  | x :: xs => some (xs.foldl (fun a b => if a < b then b else a) x)

/-- Maximum of a list of strings under Python's lexicographic order. -/
def listMaxStr : List String → Option String
  | [] => none
  | x :: xs => some (xs.foldl (fun a b => if strLt a b then b else a) x)

/-- `series.max()` over a non-NA column: numeric max when every cell is
an integer, lexicographic max when every cell is a string; a mixed
column raises a comparison error (`none`). -/
def seriesMax (l : List Cell) : Option Cell :=
  match cellsInts l with
  | some ns => (listMaxInt ns).map Cell.int
  | none =>
      match cellsStrs l with
      | some ss => (listMaxStr ss).map Cell.str
      | none => none

/-- Python `int(x)` applied to a cell value. -/
def pyIntOfCell (c : Cell) : Option Int :=
  match c with
  | .int n => some n
  | .str s => parsePyInt s
  | .na => none

/-- `next_row_id`: auto-increment internal employee id.  Mirrors the
source: empty table (or empty non-NA id column) gives 1; otherwise
`int(existing.max()) + 1`, falling back to `len(df_emp) + 1` when the
max/int conversion raises. -/
def next_row_id (emp : List Emp) : Int :=
  if emp.isEmpty then 1
  else
    let existing := (emp.map (·.rowId)).filter (· ≠ Cell.na)
    if existing.isEmpty then 1
    else
      match (seriesMax existing).bind pyIntOfCell with
      | some n => n + 1
      | none => (emp.length : Int) + 1

/-- Regex `(\d+)` applied to a string: the first maximal run of digits,
or NA when the string holds no digit. -/
def firstDigitRun (s : String) : Option String :=
  match (s.toList).dropWhile (fun c => !c.isDigit) with
  | [] => none
  | cs => some (String.mk (cs.takeWhile (·.isDigit)))

/-- `next_dept_id`: extracts the numeric part of every `Dept ID`,
returns one greater than the maximum as a string, or "1" when no id
holds a digit. -/
def next_dept_id (dept : List Dept) : String :=
  let existing := (dept.map (·.deptId)).filterMap firstDigitRun
  if existing.isEmpty then "1"
  else toString (((existing.map (fun s => digitsVal s.toList)).foldl max 0) + 1)

/-- Python `str(x).strip() if x and str(x).strip() else ""`. -/
def strippedOrEmpty (s : String) : String :=
  if s ≠ "" ∧ pyStrip s ≠ "" then pyStrip s else ""

/-- The `new_row` dictionary built by the Quick Add form on success. -/
def quickAddRow (df : List Emp)
    (newEmpid newName newExtension newDepartment newCell newLocation
     newStatus newNotes now : String) : Emp :=
  { rowId := .int (next_row_id df),
    employeeId := if pyStrip newEmpid ≠ "" then pyStrip newEmpid else "",
    name := newName, extension := newExtension,
    department := newDepartment,
    cellNumber := strippedOrEmpty newCell,
    location := strippedOrEmpty newLocation,
    status := newStatus, notes := strippedOrEmpty newNotes,
    lastUpdated := now }

/-- The Quick Add employee form (`add_emp_form`): returns the new table
and an error message on rejection.  Name/extension are checked for
falsiness (empty string); the duplicate check looks only at the trimmed
external `Employee ID` against stored ids. -/
def add_emp_form (df : List Emp)
    (newEmpid newName newExtension newDepartment newCell newLocation
     newStatus newNotes now : String) : List Emp × Option String :=
  if newName = "" then (df, some "Name is required")
  else if newExtension = "" then (df, some "Extension is required")
  else
    let eid := if pyStrip newEmpid ≠ "" then pyStrip newEmpid else ""
    if eid ≠ "" ∧ eid ∈ df.map (·.employeeId) then
      (df, some "Employee ID already exists")
    else
      (df ++ [quickAddRow df newEmpid newName newExtension newDepartment
        newCell newLocation newStatus newNotes now], none)

/-- The Add Department form (`add_dept_form`): case-insensitive
membership check of the stripped name against stored names. -/
def add_dept_form (dept : List Dept) (dname ddesc : String) :
    List Dept × Option String :=
  if pyStrip dname = "" then (dept, some "Department name is required")
  else if pyLower (pyStrip dname) ∈ dept.map (fun d => pyLower d.departmentName) then
    (dept, some "Department already exists")
  else
    (dept ++ [{ deptId := next_dept_id dept, departmentName := pyStrip dname,
                description := pyStrip ddesc }], none)

/-- A per-department resolution in the bulk-import wizard
(`bulk_dept_actions`). -/
inductive BulkDeptAction where
  | create (descr : String)
  | mapTo (target : String)
  | skip
deriving Repr, DecidableEq

/-- Department-creation pass of the bulk-import commit
(`bulk_import_btn`): each "create" action appends a department unless
the exact name is already present. -/
def bulk_import_create_depts (dept : List Dept)
    (actions : List (String × BulkDeptAction)) : List Dept :=
  actions.foldl
    (fun d item =>
      match item with
      | (deptName, .create descr) =>
          if deptName ∈ d.map (·.departmentName) then d
          else d ++ [{ deptId := next_dept_id d, departmentName := deptName,
                       description := descr }]
      | _ => d)
    dept

/-- Classification of one mapped bulk-import row. -/
inductive RowClass where
  | errorRow
  | duplicateRow
  | cleanRow
deriving Repr, DecidableEq

/-- Row classification of the bulk-upload preview: error on blank
name/extension, duplicate when the trimmed id or extension collides
with the tracking sets, clean otherwise. -/
def classify_bulk_row (existingIds existingExts : List String) (r : Emp) :
    RowClass :=
  if pyStrip r.name = "" ∨ pyStrip r.extension = "" then .errorRow
  else
    let empId := pyStrip r.employeeId
    let ext := pyStrip r.extension
    if (empId ≠ "" ∧ empId ∈ existingIds) ∨ (ext ≠ "" ∧ ext ∈ existingExts) then
      .duplicateRow
    else .cleanRow

/-- "Replace Existing" handling of one duplicate record in the
bulk-import commit: search by trimmed `Employee ID` when it is
non-blank, otherwise by trimmed extension; when a first match exists,
overwrite every field except `Row ID` and stamp `Last Updated`. -/
def replace_existing (df : List Emp) (dup : Emp) (now : String) : List Emp :=
  let empId := pyStrip dup.employeeId
  let ext := pyStrip dup.extension
  let existingIdx : Option Nat :=
    if empId ≠ "" then df.findIdx? (fun e => e.employeeId = empId)
    else if ext ≠ "" then df.findIdx? (fun e => e.extension = ext)
    else none
  match existingIdx with
  | none => df
  | some i =>
      df.mapIdx fun j e =>
        if j = i then { dup with rowId := e.rowId, lastUpdated := now } else e

/-- Sidebar "Activate All Inactive": flips every Inactive status to
Active, then stamps `Last Updated` on every row whose status is Active
after the flip. -/
def activate_all_inactive (emp : List Emp) (now : String) : List Emp :=
  let inactiveCount := (emp.filter (fun e => e.status = "Inactive")).length
  if inactiveCount > 0 then
    let flipped := emp.map fun e =>
      if e.status = "Inactive" then { e with status := "Active" } else e
    flipped.map fun e =>
      if e.status = "Active" then { e with lastUpdated := now } else e
  else emp

/-- Save branch of the Edit/Delete Department form (`edit_dept_form`):
renames the row at `idx` and cascades to employees by exact, untrimmed
comparison with the old name. -/
def edit_dept_form_save (emp : List Emp) (dept : List Dept) (idx : Nat)
    (dn dd : String) : List Emp × List Dept × Bool :=
  match dept.get? idx with
  | none => (emp, dept, false)
  | some row =>
      let oldName := row.departmentName
      if pyStrip dn = "" then (emp, dept, false)
      else if pyLower (pyStrip dn) ≠ pyLower oldName ∧
          pyLower (pyStrip dn) ∈ dept.map (fun d => pyLower d.departmentName) then
        (emp, dept, false)
      else
        let newName := pyStrip dn
        let dept' := dept.mapIdx fun j d =>
          if j = idx then
            { d with departmentName := newName,
                     description := if pyStrip dd ≠ "" then pyStrip dd else "" }
          else d
        let emp' :=
          if oldName ≠ newName then
            emp.map fun e =>
              if e.department = oldName then { e with department := newName } else e
          else emp
        (emp', dept', true)

/-- Delete branch of the Edit/Delete Department form: drops the row at
`idx` and blanks the department of employees matching the deleted name
exactly. -/
def edit_dept_form_delete (emp : List Emp) (dept : List Dept) (idx : Nat) :
    List Emp × List Dept :=
  match dept.get? idx with
  | none => (emp, dept)
  | some row =>
      let deptName := row.departmentName
      (emp.map fun e =>
        if e.department = deptName then { e with department := "" } else e,
       dept.eraseIdx idx)

/-- Rename action of the Manage Departments apply (`apply_manage_btn`):
renames the department row(s) with the given id and cascades to
employees by trimmed comparison with the old name, stamping
`Last Updated`. -/
def apply_manage_rename (emp : List Emp) (dept : List Dept)
    (dId oldName newName newDesc now : String) : List Emp × List Dept :=
  let dept1 := dept.map fun d =>
    if d.deptId = dId then { d with departmentName := newName } else d
  let dept2 :=
    if newDesc ≠ "" then
      dept1.map fun d =>
        if d.deptId = dId then { d with description := newDesc } else d
    else dept1
  let emp' := emp.map fun e =>
    if pyStrip e.department = oldName then
      { e with department := newName, lastUpdated := now }
    else e
  (emp', dept2)

/-- Delete path of the Manage Departments section
(`dept_manage_actions`): the action is refused outright when any
employee references the department (trimmed match); otherwise, on
confirmation, the apply removes the department row(s) with that id and
touches no employee. -/
def dept_manage_delete (emp : List Emp) (dept : List Dept) (dRow : Dept)
    (confirm : Bool) : List Emp × List Dept :=
  let deptName := pyStrip dRow.departmentName
  let empCount := (emp.filter (fun e => pyStrip e.department = deptName)).length
  if empCount > 0 then (emp, dept)
  else if confirm then (emp, dept.filter (fun d => d.deptId ≠ dRow.deptId))
  else (emp, dept)

/-- A per-orphaned-name resolution in the reconciliation ("Sync")
wizard (`sync_dept_actions`); optional fields model dictionary keys
read with `.get`. -/
inductive SyncAction where
  | create (newName : Option String) (descr : String)
  | merge (mergeTarget : String) (mergedName : Option String)
  | mapTo (target : Option String)
  | remove
deriving Repr, DecidableEq

/-- The incompleteness check of `apply_sync_btn`: orphaned names with
no recorded action, or a map action lacking its target. -/
def syncIncomplete (missing : List String)
    (actions : List (String × SyncAction)) : List String :=
  missing.filter fun d =>
    match actions.lookup d with
    | none => true
    | some (.mapTo none) => true
    | some _ => false

/-- `tuple(sorted([a, b]))`: the order-independent key of a merge pair. -/
def pairKey (a b : String) : String × String :=
  if strLt b a then (b, a) else (a, b)

/-- Mutable state threaded through the reconciliation apply loop. -/
structure SyncState where
  emp : List Emp
  dept : List Dept
  processed : List (String × String)
deriving Repr, DecidableEq

/-- One iteration of the `apply_sync_btn` loop over
`sync_dept_actions.items()`.  A map action without a target raises in
Python (`none` here); the gate keeps it unreachable for orphaned
names. -/
def syncStep (now : String) (st : SyncState) :
    String × SyncAction → Option SyncState
  | (deptName, .create newName descr) =>
      let finalName := newName.getD deptName
      let dept' := st.dept ++
        [{ deptId := next_dept_id st.dept, departmentName := finalName,
           description := descr }]
      let emp' :=
        if finalName ≠ deptName then
          st.emp.map fun e =>
            if pyStrip e.department = deptName then
              { e with department := finalName, lastUpdated := now }
            else e
        else st.emp
      some { emp := emp', dept := dept', processed := st.processed }
  | (deptName, .merge target mName) =>
      let mergedName := mName.getD target
      let key := pairKey deptName target
      if key ∈ st.processed then some st
      else
        let dept' := st.dept ++
          [{ deptId := next_dept_id st.dept, departmentName := mergedName,
             description := "Merged from: " ++ deptName ++ ", " ++ target }]
        let emp' := st.emp.map fun e =>
          if pyStrip e.department = deptName ∨ pyStrip e.department = target then
            { e with department := mergedName, lastUpdated := now }
          else e
        some { emp := emp', dept := dept', processed := key :: st.processed }
  | (deptName, .mapTo targetOpt) =>
      match targetOpt with
      | some target =>
          some { st with emp := st.emp.map (fun e =>
            if pyStrip e.department = deptName then
              { e with department := target, lastUpdated := now }
            else e) }
      | none => none
  | (deptName, .remove) =>
      some { st with emp := st.emp.map (fun e =>
        if pyStrip e.department = deptName then
          { e with department := "", lastUpdated := now }
        else e) }

/-- The whole `apply_sync_btn` handler: fails the batch (state
unchanged, flag `false`) when the resolution set is incomplete;
otherwise folds the actions over the tables. -/
def apply_sync (emp : List Emp) (dept : List Dept) (missing : List String)
    (actions : List (String × SyncAction)) (now : String) :
    Option (List Emp × List Dept × Bool) :=
  if syncIncomplete missing actions = [] then
    match actions.foldlM (syncStep now) ⟨emp, dept, []⟩ with
    | some st => some (st.emp, st.dept, true)
    | none => none
  else some (emp, dept, false)

example : next_row_id [] = 1 := by decide
example : next_dept_id [⟨"7", "IT", ""⟩, ⟨"D12", "HR", ""⟩] = "13" := by decide
example : parsePyInt " -42 " = some (-42) := by decide
example : parsePyInt "abc" = none := by decide

/-- A default employee row used by concrete instances. -/
def sampleEmp : Emp :=
  { rowId := .na, employeeId := "", name := "Bob", extension := "1111",
    department := "", cellNumber := "", location := "", status := "Active",
    notes := "", lastUpdated := "t0" }

theorem cellsInts_eq_some {l : List Cell} {ns : List Int}
    (h : cellsInts l = some ns) : l = ns.map Cell.int := by
  induction l generalizing ns with
  | nil =>
      simp [cellsInts] at h
      simp [← h]
  | cons c rest ih =>
      cases c with
      | na => simp [cellsInts] at h
      | str s => simp [cellsInts] at h
      | int n =>
          simp only [cellsInts, Option.map_eq_some'] at h
          obtain ⟨bs, hbs, hns⟩ := h
          subst hns
          simp [ih hbs]

theorem cellsInts_map_int (ns : List Int) :
    cellsInts (ns.map Cell.int) = some ns := by
  induction ns with
  | nil => rfl
  | cons n rest ih => simp [cellsInts, ih]

theorem foldlMax_mem (a : Int) (xs : List Int) :
    xs.foldl (fun p q => if p < q then q else p) a ∈ a :: xs := by
  induction xs generalizing a with
  | nil => simp
  | cons b bs ih =>
      simp only [List.foldl_cons]
      have h := ih (if a < b then b else a)
      rcases List.mem_cons.mp h with h | h
      · rw [h]
        by_cases hab : a < b
        · simp [hab]
        · simp [hab]
      · simp [List.mem_cons, h]

theorem foldlMax_le (a : Int) (xs : List Int) :
    ∀ y ∈ a :: xs, y ≤ xs.foldl (fun p q => if p < q then q else p) a := by
  induction xs generalizing a with
  | nil =>
      intro y hy
      simp only [List.mem_singleton] at hy
      simp [hy]
  | cons b bs ih =>
      intro y hy
      simp only [List.foldl_cons]
      have hca : a ≤ (if a < b then b else a) := by
        by_cases hab : a < b
        · simp [hab]; exact le_of_lt hab
        · simp [hab]
      have hcb : b ≤ (if a < b then b else a) := by
        by_cases hab : a < b
        · simp [hab]
        · simp [hab]; exact le_of_not_lt hab
      have hfold : (if a < b then b else a) ≤
          bs.foldl (fun p q => if p < q then q else p) (if a < b then b else a) :=
        ih _ _ (List.mem_cons_self _ _)
      rcases List.mem_cons.mp hy with h | h
      · subst h; exact le_trans hca hfold
      · rcases List.mem_cons.mp h with h | h
        · subst h; exact le_trans hcb hfold
        · exact ih _ y (List.mem_cons_of_mem _ h)

theorem isEmpty_false_of_ne_nil {α : Type} {l : List α} (h : l ≠ []) :
    l.isEmpty = false := by
  cases l with
  | nil => exact absurd rfl h
  | cons _ _ => rfl

theorem listMaxInt_spec {ns : List Int} {M : Int} (h : listMaxInt ns = some M) :
    M ∈ ns ∧ ∀ x ∈ ns, x ≤ M := by
  cases ns with
  | nil => simp [listMaxInt] at h
  | cons a xs =>
      simp only [listMaxInt, Option.some_inj] at h
      subst h
      exact ⟨foldlMax_mem a xs, foldlMax_le a xs⟩

/-- C1 counterexample: a one-row table whose only Row ID is the
unparsable string "abc" gets next id 2 (= row count + 1), not 1 as the
claim states for the all-unparsable case. -/
theorem c1_counterexample :
    next_row_id [{ sampleEmp with rowId := .str "abc" }] = 2
    ∧ parsePyInt "abc" = none := by
  constructor
  · decide
  · decide

/-- C1 (amended): `next_row_id` returns 1 on an empty table or when
every Row ID is missing; it returns the maximum existing integer id
plus one when all ids are integers; when ids exist but the max/int
conversion fails it returns the row count plus one (not 1). -/
theorem c1_amended :
    next_row_id [] = 1
    ∧ (∀ emp : List Emp, emp ≠ [] → (∀ e ∈ emp, e.rowId = Cell.na) →
        next_row_id emp = 1)
    ∧ (∀ (emp : List Emp) (ns : List Int) (M : Int),
        cellsInts (emp.map (·.rowId)) = some ns → listMaxInt ns = some M →
        (M ∈ ns ∧ ∀ x ∈ ns, x ≤ M) ∧ next_row_id emp = M + 1)
    ∧ (∀ emp : List Emp, emp ≠ [] →
        ((emp.map (·.rowId)).filter (· ≠ Cell.na)) ≠ [] →
        (seriesMax ((emp.map (·.rowId)).filter (· ≠ Cell.na))).bind pyIntOfCell
          = none →
        next_row_id emp = (emp.length : Int) + 1) := by
  refine ⟨by decide, ?_, ?_, ?_⟩
  · intro emp hne hna
    have hfil : (emp.map (·.rowId)).filter (· ≠ Cell.na) = [] := by
      apply List.filter_eq_nil_iff.mpr
      intro c hc
      obtain ⟨e, he, rfl⟩ := List.mem_map.mp hc
      simp [hna e he]
    have hempE : emp.isEmpty = false := isEmpty_false_of_ne_nil hne
    simp only [next_row_id]
    rw [hfil, hempE]
    simp
  · intro emp ns M hci hmax
    have hmap : emp.map (·.rowId) = ns.map Cell.int := cellsInts_eq_some hci
    have hspec := listMaxInt_spec hmax
    refine ⟨hspec, ?_⟩
    have hnsne : ns ≠ [] := by
      intro h; subst h; exact absurd hspec.1 (List.not_mem_nil M)
    have hne : emp ≠ [] := by
      intro h; subst h
      simp [List.map_eq_nil_iff] at hmap
      exact hnsne hmap
    have hfil : (emp.map (·.rowId)).filter (· ≠ Cell.na) = ns.map Cell.int := by
      rw [hmap]
      apply List.filter_eq_self.mpr
      intro c hc
      obtain ⟨n, _, rfl⟩ := List.mem_map.mp hc
      simp
    have hempE : emp.isEmpty = false := isEmpty_false_of_ne_nil hne
    have hmapE : (ns.map Cell.int).isEmpty = false :=
      isEmpty_false_of_ne_nil (by simp [List.map_eq_nil_iff, hnsne])
    simp only [next_row_id]
    rw [hfil, hempE, hmapE]
    simp [seriesMax, cellsInts_map_int, hmax, pyIntOfCell]
  · intro emp hne hfil hnone
    have hempE : emp.isEmpty = false := isEmpty_false_of_ne_nil hne
    have hfilE : ((emp.map (·.rowId)).filter (· ≠ Cell.na)).isEmpty = false :=
      isEmpty_false_of_ne_nil hfil
    simp only [next_row_id]
    rw [hempE, hfilE, hnone]
    simp

/-- Witness for C1: a two-row all-integer table gets next id max+1. -/
theorem c1_witness :
    next_row_id [{ sampleEmp with rowId := .int 5 },
                 { sampleEmp with rowId := .int 2 }] = 6 :=
  (c1_amended.2.2.1
    [{ sampleEmp with rowId := .int 5 }, { sampleEmp with rowId := .int 2 }]
    [5, 2] 5 (by decide) (by decide)).2

/-- Department names pairwise distinct up to case. -/
def ciUnique (dept : List Dept) : Prop :=
  dept.Pairwise (fun a b => pyLower a.departmentName ≠ pyLower b.departmentName)

/-- C2 counterexample: with an existing department "sales", the
bulk-import creation pass (exact-name membership check only) creates
"Sales" alongside it, breaking case-insensitive uniqueness. -/
theorem c2_counterexample :
    ciUnique [⟨"1", "sales", "x"⟩]
    ∧ bulk_import_create_depts [⟨"1", "sales", "x"⟩]
        [("Sales", .create "")]
        = [⟨"1", "sales", "x"⟩, ⟨"2", "Sales", ""⟩]
    ∧ ¬ ciUnique (bulk_import_create_depts [⟨"1", "sales", "x"⟩]
        [("Sales", .create "")]) :=
  ⟨by simp only [ciUnique]; decide, by decide,
   by simp only [ciUnique]; decide⟩

/-- C2 (amended): the Add Department form preserves case-insensitive
uniqueness of department names; the bulk-import and sync creation
paths check at most exact-name membership and can break it. -/
theorem c2_amended (dept : List Dept) (dname ddesc : String)
    (h : ciUnique dept) : ciUnique (add_dept_form dept dname ddesc).1 := by
  unfold add_dept_form
  by_cases h1 : pyStrip dname = ""
  · simp only [h1, if_pos rfl]
    exact h
  · rw [if_neg h1]
    by_cases h2 : pyLower (pyStrip dname) ∈
        dept.map (fun d => pyLower d.departmentName)
    · rw [if_pos h2]
      exact h
    · rw [if_neg h2]
      show ciUnique (dept ++ [_])
      rw [ciUnique, List.pairwise_append]
      refine ⟨h, List.pairwise_singleton _ _, ?_⟩
      intro a ha b hb
      simp only [List.mem_singleton] at hb
      subst hb
      intro hcontra
      exact h2 (List.mem_map.mpr ⟨a, ha, hcontra⟩)

/-- Witness for C2: adding a fresh name keeps the invariant. -/
theorem c2_witness :
    ciUnique (add_dept_form [⟨"1", "Sales", ""⟩] "HR" "people").1 :=
  c2_amended [⟨"1", "Sales", ""⟩] "HR" "people"
    (by simp only [ciUnique]; decide)

/-- C3: the Quick Add form rejects an empty name or extension and a
non-blank external id already in the table, leaving the table unchanged
in every rejection case; otherwise it appends exactly the one new row
with a freshly allocated internal id and the current timestamp. -/
theorem c3_theorem (df : List Emp)
    (newEmpid newName newExtension newDepartment newCell newLocation
     newStatus newNotes now : String) :
    ((add_emp_form df newEmpid newName newExtension newDepartment newCell
        newLocation newStatus newNotes now).2.isSome →
      (add_emp_form df newEmpid newName newExtension newDepartment newCell
        newLocation newStatus newNotes now).1 = df)
    ∧ (newName = "" ∨ newExtension = "" →
      (add_emp_form df newEmpid newName newExtension newDepartment newCell
        newLocation newStatus newNotes now).2.isSome)
    ∧ (pyStrip newEmpid ≠ "" → pyStrip newEmpid ∈ df.map (·.employeeId) →
      (add_emp_form df newEmpid newName newExtension newDepartment newCell
        newLocation newStatus newNotes now).2.isSome)
    ∧ ((add_emp_form df newEmpid newName newExtension newDepartment newCell
        newLocation newStatus newNotes now).2 = none →
      (add_emp_form df newEmpid newName newExtension newDepartment newCell
        newLocation newStatus newNotes now).1
        = df ++ [quickAddRow df newEmpid newName newExtension newDepartment
            newCell newLocation newStatus newNotes now]) := by
  have heid : (if pyStrip newEmpid ≠ "" then pyStrip newEmpid else "")
      = pyStrip newEmpid := by
    by_cases h : pyStrip newEmpid = "" <;> simp [h]
  simp only [add_emp_form, heid]
  by_cases h1 : newName = ""
  · simp [h1]
  · rw [if_neg h1]
    by_cases h2 : newExtension = ""
    · simp [h1, h2]
    · rw [if_neg h2]
      by_cases h3 : pyStrip newEmpid ≠ "" ∧
          pyStrip newEmpid ∈ df.map (·.employeeId)
      · rw [if_pos h3]
        refine ⟨fun _ => rfl, fun _ => rfl, fun _ _ => rfl, ?_⟩
        intro hnone
        simp at hnone
      · rw [if_neg h3]
        refine ⟨?_, ?_, ?_, fun _ => rfl⟩
        · intro hs
          simp at hs
        · intro hor
          rcases hor with h | h
          · exact absurd h h1
          · exact absurd h h2
        · intro hne hmem
          exact absurd ⟨hne, hmem⟩ h3

/-- Witness for C3: a concrete successful add appends one row. -/
theorem c3_witness :
    (add_emp_form [{ sampleEmp with employeeId := "E1" }]
      "E2" "Alice" "2222" "" "" "" "Active" "" "t1").1
      = [{ sampleEmp with employeeId := "E1" }]
        ++ [quickAddRow [{ sampleEmp with employeeId := "E1" }]
            "E2" "Alice" "2222" "" "" "" "Active" "" "t1"] :=
  (c3_theorem [{ sampleEmp with employeeId := "E1" }]
    "E2" "Alice" "2222" "" "" "" "Active" "" "t1").2.2.2 (by decide)

/-- C4 counterexample: the Edit Department form's rename cascade uses
exact, untrimmed matching, so an employee whose department is
" Sales " (equal to the old name only after trimming) is not updated
when "Sales" is renamed to "Retail". -/
theorem c4_counterexample :
    (edit_dept_form_save [{ sampleEmp with department := " Sales " }]
        [⟨"1", "Sales", ""⟩] 0 "Retail" "").1
      = [{ sampleEmp with department := " Sales " }]
    ∧ pyStrip " Sales " = "Sales"
    ∧ (edit_dept_form_save [{ sampleEmp with department := " Sales " }]
        [⟨"1", "Sales", ""⟩] 0 "Retail" "").2.2 = true := by
  refine ⟨?_, by decide, ?_⟩ <;> decide

/-- C4 (amended): the Manage Departments rename cascades to every
employee row whose trimmed department equals the old name; the Edit
Department form's rename cascades only on exact, untrimmed equality.
In both paths rows whose department differs (under the respective
match) are unaltered. -/
theorem c4_amended :
    (∀ (emp : List Emp) (dept : List Dept) (idx : Nat) (dn dd : String)
        (row : Dept),
      dept.get? idx = some row →
      pyStrip dn ≠ "" →
      ¬(pyLower (pyStrip dn) ≠ pyLower row.departmentName ∧
        pyLower (pyStrip dn) ∈ dept.map (fun d => pyLower d.departmentName)) →
      row.departmentName ≠ pyStrip dn →
      (edit_dept_form_save emp dept idx dn dd).1
        = emp.map (fun e =>
            if e.department = row.departmentName then
              { e with department := pyStrip dn }
            else e))
    ∧ (∀ (emp : List Emp) (dept : List Dept)
        (dId oldName newName newDesc now : String),
      (apply_manage_rename emp dept dId oldName newName newDesc now).1
        = emp.map (fun e =>
            if pyStrip e.department = oldName then
              { e with department := newName, lastUpdated := now }
            else e)) := by
  constructor
  · intro emp dept idx dn dd row hget hne hdup hold
    simp only [edit_dept_form_save]
    rw [hget]
    simp only [if_neg hne, if_neg hdup]
    rw [if_pos hold]
  · intro emp dept dId oldName newName newDesc now
    rfl

/-- Witness for C4: a concrete form rename cascades on exact match. -/
theorem c4_witness :
    (edit_dept_form_save [{ sampleEmp with department := "Sales" }]
        [⟨"1", "Sales", ""⟩] 0 "Retail" "").1
      = [{ sampleEmp with department := "Retail" }] := by
  have h := c4_amended.1 [{ sampleEmp with department := "Sales" }]
    [⟨"1", "Sales", ""⟩] 0 "Retail" "" ⟨"1", "Sales", ""⟩
    (by decide) (by decide) (by decide) (by decide)
  rw [h]
  decide

/-- C5 counterexample: the Manage Departments delete path refuses the
delete when an employee references the department: with one referencing
employee the tables are unchanged (no department row removed, no
employee blanked), contradicting "without blocking the delete". -/
theorem c5_counterexample :
    dept_manage_delete [{ sampleEmp with department := "HR" }]
        [⟨"1", "HR", ""⟩] ⟨"1", "HR", ""⟩ true
      = ([{ sampleEmp with department := "HR" }], [⟨"1", "HR", ""⟩])
    ∧ ([⟨"1", "HR", ""⟩] : List Dept).length = 1 := by
  refine ⟨?_, rfl⟩
  decide

/-- C5 (amended): the Edit Department form's delete removes exactly one
department row and blanks the department of exactly the employees whose
department equals the deleted name, removing no employee row; the
Manage Departments delete is refused whenever an employee references
the department (trimmed match) and, when allowed and confirmed,
removes the department row and touches no employee. -/
theorem c5_amended :
    (∀ (emp : List Emp) (dept : List Dept) (idx : Nat) (row : Dept),
      dept.get? idx = some row →
      edit_dept_form_delete emp dept idx
        = (emp.map (fun e =>
            if e.department = row.departmentName then
              { e with department := "" }
            else e),
           dept.eraseIdx idx)
      ∧ (dept.eraseIdx idx).length + 1 = dept.length
      ∧ (emp.map (fun e =>
            if e.department = row.departmentName then
              { e with department := "" }
            else e)).length = emp.length)
    ∧ (∀ (emp : List Emp) (dept : List Dept) (dRow : Dept) (confirm : Bool),
      (0 < (emp.filter (fun e =>
          pyStrip e.department = pyStrip dRow.departmentName)).length →
        dept_manage_delete emp dept dRow confirm = (emp, dept))
      ∧ ((emp.filter (fun e =>
          pyStrip e.department = pyStrip dRow.departmentName)).length = 0 →
        confirm = true →
        dept_manage_delete emp dept dRow confirm
          = (emp, dept.filter (fun d => d.deptId ≠ dRow.deptId)))) := by
  constructor
  · intro emp dept idx row hget
    have hlt : idx < dept.length := by
      by_contra hge
      rw [List.get?_eq_none.mpr (le_of_not_lt hge)] at hget
      exact Option.noConfusion hget
    refine ⟨?_, ?_, List.length_map _ _⟩
    · simp only [edit_dept_form_delete]
      rw [hget]
    · exact List.length_eraseIdx_add_one hlt
  · intro emp dept dRow confirm
    constructor
    · intro hpos
      simp only [dept_manage_delete]
      rw [if_pos hpos]
    · intro hzero hconf
      simp only [dept_manage_delete]
      rw [if_neg (by simp [hzero]), hconf]
      simp

/-- Witness for C5: a concrete form delete removes the row and blanks
the referencing employee. -/
theorem c5_witness :
    edit_dept_form_delete [{ sampleEmp with department := "HR" }]
        [⟨"1", "HR", ""⟩] 0
      = ([{ sampleEmp with department := "" }], []) := by
  have h := (c5_amended.1 [{ sampleEmp with department := "HR" }]
    [⟨"1", "HR", ""⟩] 0 ⟨"1", "HR", ""⟩ (by decide)).1
  rw [h]
  decide

theorem listLtChar_asymm_eq :
    ∀ as bs, listLtChar as bs = false → listLtChar bs as = false → as = bs := by
  intro as
  induction as with
  | nil =>
      intro bs h1 h2
      cases bs with
      | nil => rfl
      | cons b bs => simp [listLtChar] at h1
  | cons a as ih =>
      intro bs h1 h2
      cases bs with
      | nil => simp [listLtChar] at h2
      | cons b bs =>
          simp [listLtChar] at h1 h2
          obtain ⟨hab, h1'⟩ := h1
          obtain ⟨hba, h2'⟩ := h2
          have hab' : ¬ a < b := by simpa using hab
          have hba' : ¬ b < a := by simpa using hba
          have : a = b := le_antisymm (not_lt.mp hba') (not_lt.mp hab')
          subst this
          simp at h1' h2'
          rw [ih bs h1' h2']

theorem listLtChar_asymm :
    ∀ as bs, listLtChar as bs = true → listLtChar bs as = false := by
  intro as
  induction as with
  | nil =>
      intro bs h
      cases bs with
      | nil => simp [listLtChar] at h
      | cons b bs => simp [listLtChar]
  | cons a as ih =>
      intro bs h
      cases bs with
      | nil => simp [listLtChar] at h
      | cons b bs =>
          simp [listLtChar] at h ⊢
          rcases h with h | h
          · constructor
            · exact le_of_lt h
            · intro hba
              exact absurd (hba ▸ h) (lt_irrefl b)
          · obtain ⟨hab, hlt⟩ := h
            subst hab
            exact ⟨le_refl a, fun _ => ih bs hlt⟩

theorem strLt_asymm_eq {a b : String} (h1 : strLt a b = false)
    (h2 : strLt b a = false) : a = b := by
  have h := listLtChar_asymm_eq a.toList b.toList h1 h2
  exact congrArg String.mk h

theorem pairKey_comm (a b : String) : pairKey b a = pairKey a b := by
  unfold pairKey
  by_cases h1 : strLt a b = true
  · have h2 : strLt b a = false := listLtChar_asymm _ _ h1
    rw [if_pos h1, if_neg (by rw [h2]; exact Bool.false_ne_true)]
  · have h1' : strLt a b = false := Bool.eq_false_iff.mpr h1
    by_cases h2 : strLt b a = true
    · rw [if_neg (by rw [h1']; exact Bool.false_ne_true), if_pos h2]
    · have h2' : strLt b a = false := Bool.eq_false_iff.mpr h2
      have : a = b := strLt_asymm_eq h1' h2'
      subst this
      rfl

/-- C6: applying a reconciliation batch while some orphaned name has no
resolution (or a map resolution with no target) fails the whole apply:
the tables are returned unchanged with the failure flag. -/
theorem c6_theorem (emp : List Emp) (dept : List Dept) (missing : List String)
    (actions : List (String × SyncAction)) (now : String)
    (h : ∃ d ∈ missing, actions.lookup d = none
        ∨ actions.lookup d = some (.mapTo none)) :
    apply_sync emp dept missing actions now = some (emp, dept, false) := by
  obtain ⟨d, hd, hcase⟩ := h
  have hmem : d ∈ syncIncomplete missing actions := by
    simp only [syncIncomplete]
    apply List.mem_filter.mpr
    refine ⟨hd, ?_⟩
    rcases hcase with h | h <;> simp [h]
  have hne : syncIncomplete missing actions ≠ [] := List.ne_nil_of_mem hmem
  simp only [apply_sync]
  rw [if_neg hne]

/-- Witness for C6: an unresolved orphaned name blocks the batch. -/
theorem c6_witness :
    apply_sync [sampleEmp] [⟨"1", "IT", ""⟩] ["Ops"] [] "t4"
      = some ([sampleEmp], [⟨"1", "IT", ""⟩], false) :=
  c6_theorem [sampleEmp] [⟨"1", "IT", ""⟩] ["Ops"] [] "t4"
    ⟨"Ops", by simp, Or.inl rfl⟩

/-- C7: when two orphaned names A and B each carry a merge resolution
pointing at the other, the apply creates exactly one new department row
(the pair is keyed order-independently) and repoints every employee
whose trimmed department is A or B to the processed pair's final
name. -/
theorem c7_theorem (emp : List Emp) (dept : List Dept) (A B n m now : String)
    (hAB : A ≠ B) :
    apply_sync emp dept [A, B]
        [(A, .merge B (some n)), (B, .merge A (some m))] now
      = some
          (emp.map (fun e =>
            if pyStrip e.department = A ∨ pyStrip e.department = B then
              { e with department := n, lastUpdated := now }
            else e),
           dept ++ [{ deptId := next_dept_id dept, departmentName := n,
                      description := "Merged from: " ++ A ++ ", " ++ B }],
           true) := by
  have hBA : (B == A) = false := by
    rw [beq_eq_false_iff_ne]
    exact fun h => hAB h.symm
  have hinc : syncIncomplete [A, B]
      [(A, .merge B (some n)), (B, .merge A (some m))] = [] := by
    simp [syncIncomplete, List.lookup, hBA]
  have hstep1 : syncStep now ⟨emp, dept, []⟩ (A, .merge B (some n))
      = some ⟨emp.map (fun e =>
            if pyStrip e.department = A ∨ pyStrip e.department = B then
              { e with department := n, lastUpdated := now }
            else e),
          dept ++ [{ deptId := next_dept_id dept, departmentName := n,
                     description := "Merged from: " ++ A ++ ", " ++ B }],
          [pairKey A B]⟩ := by
    simp [syncStep]
  have hstep2 : syncStep now
      (⟨emp.map (fun e =>
            if pyStrip e.department = A ∨ pyStrip e.department = B then
              { e with department := n, lastUpdated := now }
            else e),
          dept ++ [{ deptId := next_dept_id dept, departmentName := n,
                     description := "Merged from: " ++ A ++ ", " ++ B }],
          [pairKey A B]⟩ : SyncState) (B, .merge A (some m))
      = some ⟨emp.map (fun e =>
            if pyStrip e.department = A ∨ pyStrip e.department = B then
              { e with department := n, lastUpdated := now }
            else e),
          dept ++ [{ deptId := next_dept_id dept, departmentName := n,
                     description := "Merged from: " ++ A ++ ", " ++ B }],
          [pairKey A B]⟩ := by
    simp only [syncStep, pairKey_comm A B]
    rw [if_pos (List.mem_singleton_self _)]
  simp only [apply_sync]
  rw [if_pos hinc, List.foldlM_cons, hstep1]
  show (match List.foldlM (syncStep now) _ [(B, .merge A (some m))] with
    | some st => some (st.emp, st.dept, true)
    | none => none) = _
  rw [List.foldlM_cons, hstep2]
  rfl

/-- Witness for C7: a concrete symmetric merge pair yields one new
department and repointed employees. -/
theorem c7_witness :
    apply_sync [{ sampleEmp with department := "Ops" }] []
        ["Ops", "Opps"]
        [("Ops", .merge "Opps" (some "Operations")),
         ("Opps", .merge "Ops" (some "Oops"))] "t5"
      = some
          ([{ sampleEmp with
              department := "Operations"
              lastUpdated := "t5" }],
           [{ deptId := "1", departmentName := "Operations",
              description := "Merged from: Ops, Opps" }],
           true) := by
  have h := c7_theorem [{ sampleEmp with department := "Ops" }] []
    "Ops" "Opps" "Operations" "Oops" "t5" (by decide)
  rw [h]
  decide

/-- C8 counterexample: with one already-Active row (stamp "t0") and one
Inactive row, the bulk activation stamps the already-Active row too; the
claim says rows that were Active keep their previous stamp. -/
theorem c8_counterexample :
    activate_all_inactive
        [{ sampleEmp with status := "Active", lastUpdated := "t0" },
         { sampleEmp with status := "Inactive", lastUpdated := "t1" }] "t2"
      = [{ sampleEmp with status := "Active", lastUpdated := "t2" },
         { sampleEmp with status := "Active", lastUpdated := "t2" }]
    ∧ ("t2" : String) ≠ "t0" := by
  exact ⟨by decide, by decide⟩

/-- C8 (amended): when at least one row is Inactive, the operation sets
every Inactive row to Active and stamps `Last Updated` with the current
time on every row that is Active afterwards — including rows that were
already Active; rows with any other status are untouched.  With no
Inactive row nothing changes at all. -/
theorem c8_amended (emp : List Emp) (now : String) :
    ((∃ e ∈ emp, e.status = "Inactive") →
      activate_all_inactive emp now
        = emp.map (fun e =>
            if e.status = "Inactive" then
              { e with status := "Active", lastUpdated := now }
            else if e.status = "Active" then { e with lastUpdated := now }
            else e))
    ∧ ((∀ e ∈ emp, e.status ≠ "Inactive") →
      activate_all_inactive emp now = emp) := by
  constructor
  · rintro ⟨e, he, hs⟩
    have hpos : 0 < (emp.filter (fun x => x.status = "Inactive")).length := by
      apply List.length_pos.mpr
      exact List.ne_nil_of_mem (List.mem_filter.mpr ⟨he, by simp [hs]⟩)
    simp only [activate_all_inactive]
    rw [if_pos hpos, List.map_map]
    congr 1
    funext x
    by_cases h1 : x.status = "Inactive" <;> simp [Function.comp, h1]
  · intro hall
    have hfil : emp.filter (fun x => x.status = "Inactive") = [] :=
      List.filter_eq_nil_iff.mpr (fun e he => by simp [hall e he])
    simp only [activate_all_inactive, hfil]
    simp

/-- Witness for C8: one Inactive row becomes Active and stamped. -/
theorem c8_witness :
    activate_all_inactive
        [{ sampleEmp with status := "Inactive", lastUpdated := "t1" }] "t2"
      = [{ sampleEmp with status := "Active", lastUpdated := "t2" }] := by
  have h := (c8_amended
    [{ sampleEmp with status := "Inactive", lastUpdated := "t1" }] "t2").1
    ⟨{ sampleEmp with status := "Inactive", lastUpdated := "t1" },
     List.mem_singleton_self _, rfl⟩
  rw [h]
  decide

/-- C9 counterexample: the duplicate record carries the non-blank fresh
id "E2" (matching no row) while its extension collides with the
existing row; "Replace Existing" does nothing — no fallback to the
extension match happens when the id merely fails to match. -/
theorem c9_counterexample :
    replace_existing [{ sampleEmp with employeeId := "E1" }]
        { sampleEmp with employeeId := "E2", name := "Alice" } "t9"
      = [{ sampleEmp with employeeId := "E1" }]
    ∧ pyStrip "E2" ≠ ""
    ∧ ({ sampleEmp with employeeId := "E2", name := "Alice" } : Emp).extension
        = ({ sampleEmp with employeeId := "E1" } : Emp).extension
    ∧ (∀ e ∈ [{ sampleEmp with employeeId := "E1" }],
        e.employeeId ≠ pyStrip "E2") :=
  ⟨by decide, by decide, by decide, by decide⟩

/-- C9 (amended): "Replace Existing" overwrites the first row matched
by the trimmed external id when that id is non-blank — preserving the
row's internal Row ID and updating every other field, with a fresh
`Last Updated` — and falls back to matching by extension only when the
incoming external id is blank; when the non-blank id matches no row,
nothing is replaced. -/
theorem c9_amended (df : List Emp) (dup : Emp) (now : String) :
    (∀ i : Nat, pyStrip dup.employeeId ≠ "" →
      df.findIdx? (fun e => e.employeeId = pyStrip dup.employeeId) = some i →
      replace_existing df dup now
        = df.mapIdx (fun j e =>
            if j = i then { dup with rowId := e.rowId, lastUpdated := now }
            else e))
    ∧ (∀ i : Nat, pyStrip dup.employeeId = "" → pyStrip dup.extension ≠ "" →
      df.findIdx? (fun e => e.extension = pyStrip dup.extension) = some i →
      replace_existing df dup now
        = df.mapIdx (fun j e =>
            if j = i then { dup with rowId := e.rowId, lastUpdated := now }
            else e))
    ∧ (pyStrip dup.employeeId ≠ "" →
      df.findIdx? (fun e => e.employeeId = pyStrip dup.employeeId) = none →
      replace_existing df dup now = df) := by
  refine ⟨?_, ?_, ?_⟩
  · intro i hne hfind
    simp only [replace_existing]
    rw [if_pos hne, hfind]
  · intro i hid hext hfind
    simp only [replace_existing]
    rw [if_neg (fun hcon => hcon hid), if_pos hext, hfind]
  · intro hne hfind
    simp only [replace_existing]
    rw [if_pos hne, hfind]

/-- Witness for C9: a matching non-blank id overwrites the row while
keeping its Row ID. -/
theorem c9_witness :
    replace_existing [{ sampleEmp with employeeId := "E1" }]
        { sampleEmp with employeeId := "E1", name := "Alice" } "t9"
      = [{ sampleEmp with
           employeeId := "E1"
           name := "Alice"
           lastUpdated := "t9" }] := by
  have h := (c9_amended [{ sampleEmp with employeeId := "E1" }]
    { sampleEmp with employeeId := "E1", name := "Alice" } "t9").1 0
    (by decide) (by decide)
  rw [h]
  decide

/-- C10: the Quick Add duplicate check looks only at the external
Employee ID, never the Extension: an add whose extension already exists
(with a blank or fresh external id) succeeds and leaves at least two
employees sharing that extension, while the bulk-import classifier
marks the very same extension collision as a duplicate. -/
theorem c10_theorem (df : List Emp)
    (newEmpid newName newExtension now : String)
    (hn : newName ≠ "") (hns : pyStrip newName ≠ "")
    (hx : newExtension ≠ "") (hxs : pyStrip newExtension = newExtension)
    (hmem : newExtension ∈ df.map (·.extension))
    (hid : pyStrip newEmpid = "" ∨ pyStrip newEmpid ∉ df.map (·.employeeId)) :
    (add_emp_form df newEmpid newName newExtension "" "" "" "Active" "" now).2
      = none
    ∧ 2 ≤ ((add_emp_form df newEmpid newName newExtension "" "" "" "Active" ""
        now).1.filter (fun e => e.extension = newExtension)).length
    ∧ classify_bulk_row (df.map (·.employeeId)) (df.map (·.extension))
        { sampleEmp with
          employeeId := newEmpid
          name := newName
          extension := newExtension }
      = .duplicateRow := by
  have heid : (if pyStrip newEmpid ≠ "" then pyStrip newEmpid else "")
      = pyStrip newEmpid := by
    by_cases h : pyStrip newEmpid = "" <;> simp [h]
  have hnotdup : ¬(pyStrip newEmpid ≠ "" ∧
      pyStrip newEmpid ∈ df.map (·.employeeId)) := by
    rintro ⟨h1, h2⟩
    rcases hid with h | h
    · exact h1 h
    · exact h h2
  have hform : add_emp_form df newEmpid newName newExtension "" "" "" "Active"
      "" now
      = (df ++ [quickAddRow df newEmpid newName newExtension "" "" "" "Active"
          "" now], none) := by
    simp only [add_emp_form, heid]
    rw [if_neg hn, if_neg hx, if_neg hnotdup]
  refine ⟨by rw [hform], ?_, ?_⟩
  · rw [hform]
    show 2 ≤ ((df ++ [quickAddRow df newEmpid newName newExtension "" "" ""
      "Active" "" now]).filter (fun e => e.extension = newExtension)).length
    rw [List.filter_append, List.length_append]
    have h1 : 0 < (df.filter (fun e => e.extension = newExtension)).length := by
      obtain ⟨e, he, hee⟩ := List.mem_map.mp hmem
      apply List.length_pos.mpr
      exact List.ne_nil_of_mem (List.mem_filter.mpr ⟨he, by simp [hee]⟩)
    have h2 : (([quickAddRow df newEmpid newName newExtension "" "" "" "Active"
        "" now]).filter (fun e => e.extension = newExtension)).length = 1 := by
      simp [quickAddRow]
    omega
  · simp [classify_bulk_row, hns, hxs, hx, hmem]

/-- Witness for C10: with an existing extension "1111", the Quick Add
of a second "1111" succeeds while the bulk classifier calls it a
duplicate. -/
theorem c10_witness :
    (add_emp_form [{ sampleEmp with employeeId := "E1" }] "" "Rita" "1111" ""
        "" "" "Active" "" "t6").2 = none
    ∧ 2 ≤ ((add_emp_form [{ sampleEmp with employeeId := "E1" }] "" "Rita"
        "1111" "" "" "" "Active" "" "t6").1.filter
          (fun e => e.extension = "1111")).length
    ∧ classify_bulk_row
        ([{ sampleEmp with employeeId := "E1" }].map (·.employeeId))
        ([{ sampleEmp with employeeId := "E1" }].map (·.extension))
        { sampleEmp with
          employeeId := ""
          name := "Rita"
          extension := "1111" }
      = .duplicateRow :=
  c10_theorem [{ sampleEmp with employeeId := "E1" }] "" "Rita" "1111" "t6"
    (by decide) (by decide) (by decide) (by decide) (by decide)
    (Or.inl (by decide))
